import Mathlib

/-!
Shallow embedding of the NocoBase audit manager
(`src/packages/core/server/src/audit-manager/index.ts`).

The embedding models the JavaScript runtime pieces the code relies on:
JS `Map` (insertion-ordered association list with replace-on-set),
object spread `{...a, ...b}`, JS truthiness, the two regular-expression
grammars used by `registerAction`, Node buffers/streams, and async
functions that may reject (`Except String`).
-/

set_option maxHeartbeats 1000000

namespace NocobaseAudit

/-- Stream kinds distinguished by `isStream` in the source (lines 13-20):
`Stream.Readable`, `Stream.Writable`, `Stream.Duplex`, `Stream.Transform`. -/
inductive StreamKind where
  | readable
  | writable
  | duplex
  | transform

/-- Model of the JavaScript values the audit manager inspects.
`vnull` stands for both `null` and `undefined`; `vbuf` models a Node
`Buffer` (contents opaque, identified by a number); `vstream` models a
stream object of the given kind. -/
inductive Val where
  | vnull
  | vbool (b : Bool)
  | vnum (n : Int)
  | vstr (s : String)
  | vobj (fields : List (String × Val))
  | vbuf (id : Nat)
  | vstream (kind : StreamKind)

/-- JavaScript truthiness of a `Val` (objects, buffers and streams are
always truthy; `null`/`undefined`, `false`, `0` and `""` are falsy). -/
def jsTruthy : Val → Bool
  | .vnull => false
  | .vbool b => b
  | .vnum n => n != 0
  | .vstr s => s != ""
  | .vobj _ => true
  | .vbuf _ => true
  | .vstream _ => true

/-- Model of `Buffer.isBuffer` (source line 202). -/
def isBuffer : Val → Bool
  | .vbuf _ => true
  | _ => false

/-- Model of `isStream` (source lines 13-20): true exactly when the value
is an instance of one of the four Node stream classes. -/
def isStream : Val → Bool
  | .vstream _ => true
  | _ => false

/-- JavaScript truthiness of an optional string (`undefined` and `""` are
falsy). -/
def jsStrTruthy : Option String → Bool
  | none => false
  | some s => s != ""

section KVMap

variable {α : Type}

/-- Lookup in a JS `Map` / object modelled as an association list
(`Map.prototype.get`; returns `none` for a missing key). -/
def mapGet : List (String × α) → String → Option α
  | [], _ => none
  | (k0, v0) :: rest, k => if k0 = k then some v0 else mapGet rest k

/-- Update in a JS `Map` / object modelled as an association list
(`Map.prototype.set` / property assignment: replaces the entry in place
if the key exists, otherwise appends it). -/
def mapSet : List (String × α) → String → α → List (String × α)
  | [], k, v => [(k, v)]
  | (k0, v0) :: rest, k, v =>
    if k0 = k then (k, v) :: rest else (k0, v0) :: mapSet rest k v

/-- JavaScript object spread `{...a, ...b}`: every key of `b` is written
over `a` in order, so `b`'s fields win on key collision. -/
def spread (a b : List (String × α)) : List (String × α) :=
  b.foldl (fun acc kv => mapSet acc kv.1 kv.2) a

end KVMap

/-- A JavaScript record (`Record<string, any>`). -/
abbrev JRecord := List (String × Val)

/-- Request context interface: the fields of the Koa-style `ctx` that the
audit manager reads (`ctx.action`, `ctx.request`, `ctx.response`,
`ctx.state`, `ctx.body`, `ctx.reqId`, `ctx.status`, `ctx.log`). -/
structure ReqCtx where
  reqId : String
  /-- `ctx.action.resourceName` (may be `undefined`). -/
  resourceName : Option String
  /-- `ctx.action.actionName`. -/
  actionName : String
  /-- `ctx.action.params.filterByTk`. -/
  filterByTk : Option String
  /-- `ctx.action.params.filterKeys`. -/
  filterKeys : Option (List String)
  requestParams : Val
  requestQuery : Val
  requestBody : Val
  /-- `ctx.body`, the response body. -/
  body : Val
  /-- `ctx.request.header['x-data-source']`. -/
  headerDataSource : Option String
  /-- `ctx.request.header['user-agent']`. -/
  headerUserAgent : Option String
  ip : String
  /-- `ctx.state?.currentUser?.id` after optional chaining. -/
  currentUserId : Option String
  /-- `ctx.state?.currentRole`. -/
  currentRole : Option String
  /-- `ctx.status` / `ctx.response.status` (aliases in Koa). -/
  status : Int
  /-- Whether `ctx.log` is present (it is accessed as `ctx.log?.error`). -/
  hasLog : Bool

/-- Result of a rule's `getUserInfo` hook; `id`/`roleName` may be absent. -/
structure UserInfo where
  id : Option String := none
  roleName : Option String := none

/-- The `AuditLog` interface (source lines 22-36). `metadata` is `null`
until `output` fills it in, hence the `Option`. -/
structure AuditLog where
  uuid : String
  dataSource : String
  resource : Option String
  collection : String
  association : String
  action : String
  resourceUk : String
  userId : Option String
  roleName : Option String
  ip : String
  ua : Option String
  status : Int
  metadata : Option JRecord

/-- An async `getMetaData` hook: `(ctx) => Promise<Record<string, any>>`;
a rejected promise is an `Except.error` carrying the error message. -/
abbrev MetaHook := ReqCtx → Except String JRecord

/-- An async `getUserInfo` hook: `(ctx) => Promise<Record<string, any>>`;
it may resolve to `null`/`undefined` (`Except.ok none`). -/
abbrev UserHook := ReqCtx → Except String (Option UserInfo)

/-- A stored rule: the `saveAction` object built by `registerAction`
(source lines 149-157). -/
structure Rule where
  name : String
  getMetaData : Option MetaHook := none
  getUserInfo : Option UserHook := none

/-- The `Action` registration argument (source lines 42-49): either a
plain token string or an object with a name and optional hooks. -/
inductive ActionReg where
  | str (s : String)
  | obj (name : String) (getMetaData : Option MetaHook) (getUserInfo : Option UserHook)

/-- The `originAction` token of a registration argument. -/
def ActionReg.nameOf : ActionReg → String
  | .str s => s
  | .obj n _ _ => n

/-- The `saveAction` record stored for a registration argument: the token
as `name`, plus whichever hooks were supplied (source lines 149-157). -/
def ActionReg.mkRule : ActionReg → Rule
  | .str s => { name := s }
  | .obj n gm gu => { name := n, getMetaData := gm, getUserInfo := gu }

/-- The sink interface `AuditLogger` (source lines 38-40): `log` returns a
promise; a synchronous throw / rejection is an `Except.error`. -/
structure AuditLogger where
  logFn : AuditLog → Except String Unit

/-- The `AuditManager` state: an optional sink and the two-level rule map
`resources : Map<string, Map<string, Action>>`. -/
structure AuditManager where
  logger : Option AuditLogger := none
  resources : List (String × List (String × Rule)) := []

/-- `new AuditManager()`: no logger set, empty resource map. -/
def AuditManager.empty : AuditManager := {}

/-- `setLogger` (source lines 59-61). -/
def AuditManager.setLogger (m : AuditManager) (lg : AuditLogger) : AuditManager :=
  { m with logger := some lg }

/-- One character of the token grammar character class `[a-zA-Z0-9_-]`. -/
def isNameChar (c : Char) : Bool :=
  c.isAlpha || c.isDigit || c == '_' || c == '-'

/-- Whether a character list matches `^[a-zA-Z0-9_-]+$`. -/
def isNameChars (cs : List Char) : Bool :=
  !cs.isEmpty && cs.all isNameChar

/-- JavaScript `String.prototype.split` with a single-character separator
(always returns at least one, possibly empty, group). -/
def splitChar (sep : Char) : List Char → List (List Char)
  | [] => [[]]
  | c :: rest =>
    if c == sep then [] :: splitChar sep rest
    else
      match splitChar sep rest with
      | [] => [[c]]
      | g :: gs => (c :: g) :: gs

/-- JavaScript `Array.prototype.join`. -/
def joinStrings (sep : String) : List String → String
  | [] => ""
  | [s] => s
  | s :: rest => s ++ sep ++ joinStrings sep rest

/-- Token parsing inside `registerAction` (source lines 121-140): the
three regexes `^[a-zA-Z0-9_-]+$` (bare action), `^([a-zA-Z0-9_-]+):\*$`
(resource wildcard) and `^([a-zA-Z0-9_-]+):([a-zA-Z0-9_-]+)$` (qualified)
are tested in sequence, each match overwriting the previous result, with
`("", "")` when none matches.  A group of the grammar can never contain
`':'`, so splitting on `':'` decides the last two regexes. -/
def parseAction (originAction : String) : String × String :=
  let cs := originAction.data
  let p1 : String × String :=
    if isNameChars cs then ("__default__", originAction) else ("", "")
  let p2 : String × String :=
    match splitChar ':' cs with
    | [r, ['*']] => if isNameChars r then (String.mk r, "__default__") else p1
    | _ => p1
  match splitChar ':' cs with
  | [r, a] => if isNameChars r && isNameChars a then (String.mk r, String.mk a) else p2
  | _ => p2

/-- `registerAction` (source lines 110-159): parse the token; silently
drop it when no grammar matched; otherwise store the `saveAction` under
`resources[resourceName][actionName]`, creating the bucket if needed. -/
def AuditManager.registerAction (m : AuditManager) (action : ActionReg) : AuditManager :=
  let originAction := ActionReg.nameOf action
  let parsed := parseAction originAction
  let resourceName := parsed.1
  let actionName := parsed.2
  if resourceName = "" ∧ actionName = "" then m
  else
    let resource := (mapGet m.resources resourceName).getD []
    { m with
      resources :=
        mapSet m.resources resourceName
          (mapSet resource actionName (ActionReg.mkRule action)) }

/-- `registerActions` (source lines 100-104): register each element in
order. -/
def AuditManager.registerActions (m : AuditManager) (actions : List ActionReg) : AuditManager :=
  actions.foldl (fun acc a => acc.registerAction a) m

/-- `getAction` (source lines 161-197): resolve the rule for an observed
`(action, resource)` pair.  A missing or empty resource means the
`__default__` bucket with exact-action lookup only; a named resource
tries its own bucket first (exact action, then the bucket's
`__default__` wildcard entry, with no further fallback), and falls back
to the `__default__` bucket's exact action only when the named bucket
does not exist at all. -/
def AuditManager.getAction (m : AuditManager) (action : String) (resource : Option String) :
    Option Rule :=
  let resourceName : String :=
    match resource with
    | none => "__default__"
    | some r => if r = "" then "__default__" else r
  if resourceName = "__default__" then
    match mapGet m.resources resourceName with
    | some resourceActions => mapGet resourceActions action
    | none => none
  else
    match mapGet m.resources resourceName with
    | some resourceActions =>
      match mapGet resourceActions action with
      | some resourceAction => some resourceAction
      | none => mapGet resourceActions "__default__"
    | none =>
      match mapGet m.resources "__default__" with
      | some resourceActions => mapGet resourceActions action
      | none => none

/-- Direct two-level lookup `resources.get(r)?.get(a)`, used to state
facts about the stored map. -/
def AuditManager.getRule (m : AuditManager) (r a : String) : Option Rule :=
  (mapGet m.resources r).bind (fun bucket => mapGet bucket a)

/-- `getDefaultMetaData` (source lines 199-216): request params, query and
body verbatim; the response body only when it is truthy and neither a
`Buffer` nor a stream, otherwise the `body` field is `null`. -/
def getDefaultMetaData (ctx : ReqCtx) : JRecord :=
  let body : Val :=
    if jsTruthy ctx.body then
      if !isBuffer ctx.body && !isStream ctx.body then ctx.body else .vnull
    else .vnull
  [("request", .vobj
      [("params", ctx.requestParams),
       ("query", ctx.requestQuery),
       ("body", ctx.requestBody)]),
   ("response", .vobj [("body", body)])]

/-- `formatResourceUk` (source lines 251-264): start from `""`, take
`filterByTk` when truthy, then overwrite with `filterKeys.join(',')`
when the key list is present and non-empty. -/
def formatResourceUk (ctx : ReqCtx) : String :=
  let afterTk : String :=
    match ctx.filterByTk with
    | some s => if s != "" then s else ""
    | none => ""
  match ctx.filterKeys with
  | some ks => if ks.length > 0 then joinStrings "," ks else afterTk
  | none => afterTk

/-- `formatAuditData` (source lines 218-249): split a truthy resource name
on `'.'`; when there are at least two segments, `collection` is segment 0
and `association` is segment 1 (`resourceArray[1]`), otherwise the whole
name is the collection.  The remaining fields are copied from the
context (`x-data-source` header defaulting to `"main"` when falsy). -/
def formatAuditData (ctx : ReqCtx) : AuditLog :=
  let rnStr := ctx.resourceName.getD ""
  let parts :=
    if jsStrTruthy ctx.resourceName then
      let resourceArray := (splitChar '.' rnStr.data).map String.mk
      if resourceArray.length > 1 then
        (resourceArray.headD "", (resourceArray.get? 1).getD "")
      else (rnStr, "")
    else ("", "")
  { uuid := ctx.reqId
    dataSource :=
      if jsStrTruthy ctx.headerDataSource then ctx.headerDataSource.getD "" else "main"
    resource := ctx.resourceName
    collection := parts.1
    association := parts.2
    action := ctx.actionName
    resourceUk := formatResourceUk ctx
    userId := ctx.currentUserId
    roleName := ctx.currentRole
    ip := ctx.ip
    ua := ctx.headerUserAgent
    status := ctx.status
    metadata := none }

/-- Apply the result of a `getUserInfo` hook (source lines 277-287): when
the hook returned a truthy object, a truthy `id` overrides `userId` and a
truthy `roleName` overrides `roleName`. -/
def applyUserInfo (al : AuditLog) (ui : Option UserInfo) : AuditLog :=
  match ui with
  | none => al
  | some u =>
    let al1 := if jsStrTruthy u.id then { al with userId := u.id } else al
    if jsStrTruthy u.roleName then { al1 with roleName := u.roleName } else al1

/-- The record-building part of `output` (source lines 273-298): format
the base record, overwrite `uuid` and `status` with the values captured
by the middleware, run the hooks (either of which may reject), and fill
`metadata` from `{...metadata, ...extra}` when a `getMetaData` hook
exists, else from `{...metadata, ...defaultMetaData}`. -/
def buildAuditLog (rule : Rule) (ctx : ReqCtx) (reqId : String) (status : Int)
    (metadata : JRecord) : Except String AuditLog := do
  let al := formatAuditData ctx
  let al := { al with uuid := reqId, status := status }
  let al ←
    match rule.getUserInfo with
    | some f => do
      let ui ← f ctx
      pure (applyUserInfo al ui)
    | none => pure al
  let md ←
    match rule.getMetaData with
    | some f => do
      let extra ← f ctx
      pure (spread metadata extra)
    | none => pure (spread metadata (getDefaultMetaData ctx))
  pure { al with metadata := some md }

/-- Observable effects of one `output` call: the records handed to the
sink's `log`, and the messages passed to `ctx.log?.error`. -/
structure OutEffects where
  sinkCalls : List AuditLog
  diags : List String

/-- `output` (source lines 266-303): resolve the rule (no rule: nothing
happens), build the record, hand it to the sink.  The whole body sits in
a `try`/`catch` that reports any error via
`ctx.log?.error('audit output error: ' + err.message)` and swallows it. -/
def output (m : AuditManager) (ctx : ReqCtx) (reqId : String) (status : Int)
    (metadata : JRecord) : OutEffects :=
  let diag := fun (e : String) =>
    if ctx.hasLog then ["audit output error: " ++ e] else []
  match m.getAction ctx.actionName ctx.resourceName with
  | none => { sinkCalls := [], diags := [] }
  | some rule =>
    match buildAuditLog rule ctx reqId status metadata with
    | .error e => { sinkCalls := [], diags := diag e }
    | .ok al =>
      match m.logger with
      | none =>
        -- `this.logger.log` on an unset logger: the TypeError is caught
        -- by the same `catch`; the middleware never reaches this branch.
        { sinkCalls := [], diags := diag "this.logger is undefined" }
      | some lg =>
        match lg.logFn al with
        | .ok _ => { sinkCalls := [al], diags := [] }
        | .error e => { sinkCalls := [al], diags := diag e }

/-- Outcome of the downstream handler `next`: it either returns normally
or throws, and in both cases leaves the (possibly mutated) context. -/
inductive NextResult where
  | ok (ctx : ReqCtx)
  | err (msg : String) (ctx : ReqCtx)

/-- The context state after the downstream handler ran. -/
def NextResult.ctxAfter : NextResult → ReqCtx
  | .ok c => c
  | .err _ c => c

/-- The error thrown by the downstream handler, if any. -/
def NextResult.thrownErr : NextResult → Option String
  | .ok _ => none
  | .err m _ => some m

/-- Result of one middleware run: the error re-raised to the caller (if
any), the context as left by the downstream handler, and the audit
effects. -/
structure MwResult where
  thrown : Option String
  ctxOut : ReqCtx
  effects : OutEffects

/-- `middleware` (source lines 305-327): capture `reqId`, run `next`
once; on failure capture `{status: ctx.status, errMsg}` and flip the
succeeded flag to `0`, re-throwing the original error; in the `finally`
block call `output` if and only if a logger is set. -/
def middleware (m : AuditManager) (next : ReqCtx → NextResult) (ctx : ReqCtx) : MwResult :=
  let reqId := ctx.reqId
  match next ctx with
  | .ok ctx1 =>
    { thrown := none
      ctxOut := ctx1
      effects :=
        if m.logger.isSome then output m ctx1 reqId 1 [] else { sinkCalls := [], diags := [] } }
  | .err msg ctx1 =>
    let metadata : JRecord := [("status", .vnum ctx1.status), ("errMsg", .vstr msg)]
    { thrown := some msg
      ctxOut := ctx1
      effects :=
        if m.logger.isSome then output m ctx1 reqId 0 metadata
        else { sinkCalls := [], diags := [] } }

end NocobaseAudit

namespace NocobaseAudit

/-! ### Helper lemmas about the JS map model -/

/-- First-some choice on options, used to state lookup fallbacks. -/
def oor {α : Type} : Option α → Option α → Option α
  | some x, _ => some x
  | none, b => b

theorem oor_none_right {α : Type} (x : Option α) : oor x none = x := by
  cases x <;> rfl

theorem oor_assoc {α : Type} (x y z : Option α) :
    oor (oor x y) z = oor x (oor y z) := by
  cases x <;> rfl

theorem mapGet_mapSet_self {α : Type} (m : List (String × α)) (k : String) (v : α) :
    mapGet (mapSet m k v) k = some v := by
  induction m with
  | nil => simp [mapGet, mapSet]
  | cons hd tl ih =>
    obtain ⟨k0, v0⟩ := hd
    by_cases h : k0 = k
    · simp [mapGet, mapSet, h]
    · simp [mapGet, mapSet, h, ih]

theorem mapGet_mapSet_ne {α : Type} (m : List (String × α)) (k k2 : String) (v : α)
    (h : k ≠ k2) : mapGet (mapSet m k v) k2 = mapGet m k2 := by
  induction m with
  | nil => simp [mapGet, mapSet, h]
  | cons hd tl ih =>
    obtain ⟨k0, v0⟩ := hd
    by_cases h0 : k0 = k
    · subst h0; simp [mapGet, mapSet, h]
    · by_cases h2 : k0 = k2
      · subst h2; simp [mapGet, mapSet, h0]
      · simp [mapGet, mapSet, h0, h2, ih]

theorem mapGet_eq_none_of_not_mem {α : Type} (m : List (String × α)) (k : String)
    (h : k ∉ m.map Prod.fst) : mapGet m k = none := by
  induction m with
  | nil => rfl
  | cons hd tl ih =>
    obtain ⟨k0, v0⟩ := hd
    simp only [List.map_cons, List.mem_cons, not_or] at h
    have hk0 : k0 ≠ k := fun hk => h.1 hk.symm
    simp [mapGet, hk0, ih h.2]

/-- Lookup after an object spread: fields of `b` win on key collision,
fields of `a` survive where `b` has no such key (for records with
JS-object-like distinct keys in `b`). -/
theorem mapGet_spread {α : Type} (a b : List (String × α)) (k : String)
    (hb : (b.map Prod.fst).Nodup) :
    mapGet (spread a b) k = oor (mapGet b k) (mapGet a k) := by
  induction b generalizing a with
  | nil => simp [spread, mapGet, oor]
  | cons hd tl ih =>
    obtain ⟨k0, v0⟩ := hd
    simp only [List.map_cons, List.nodup_cons] at hb
    have hstep : spread a ((k0, v0) :: tl) = spread (mapSet a k0 v0) tl := rfl
    rw [hstep, ih _ hb.2]
    by_cases h : k0 = k
    · subst h
      have : mapGet tl k0 = none :=
        mapGet_eq_none_of_not_mem tl k0 hb.1
      rw [this, mapGet_mapSet_self]
      simp [mapGet, oor]
    · rw [mapGet_mapSet_ne _ _ _ _ h]
      simp [mapGet, h, oor]

end NocobaseAudit

namespace NocobaseAudit

/-! ### Specification-level view of the registry -/

/-- The rule stored for the slot `(r, a)` after registering `toks` in
order: the `saveAction` of the last token whose parse is `(r, a)`
(later registrations overwrite earlier ones at the same slot). -/
def lastRuleFor (toks : List ActionReg) (r a : String) : Option Rule :=
  match toks with
  | [] => none
  | t :: ts =>
    oor (lastRuleFor ts r a)
      (if parseAction (ActionReg.nameOf t) = (r, a) then some (ActionReg.mkRule t) else none)

/-- Whether some registered token parses to the resource `r`, i.e.
whether the bucket for `r` exists after registering `toks`. -/
def touchesResource (toks : List ActionReg) (r : String) : Bool :=
  toks.any (fun t => (parseAction (ActionReg.nameOf t)).1 == r)

theorem getRule_registerAction (m : AuditManager) (t : ActionReg) (r a : String)
    (hr : r ≠ "") :
    (m.registerAction t).getRule r a =
      if parseAction (ActionReg.nameOf t) = (r, a) then some (ActionReg.mkRule t)
      else m.getRule r a := by
  rcases hp : parseAction (ActionReg.nameOf t) with ⟨rn, an⟩
  by_cases hz : rn = "" ∧ an = ""
  · obtain ⟨hz1, hz2⟩ := hz
    subst hz1; subst hz2
    have hne : ¬((("" : String), ("" : String)) = (r, a)) := by
      rintro h
      exact hr ((Prod.mk.injEq _ _ _ _).mp h).1.symm
    simp [AuditManager.registerAction, hp, hne]
  · simp only [AuditManager.registerAction, hp, if_neg hz]
    by_cases hrn : rn = r
    · subst hrn
      by_cases han : an = a
      · subst han
        simp [AuditManager.getRule, mapGet_mapSet_self]
      · have hne : ¬((rn, an) = (rn, a)) := by simp [han]
        simp only [if_neg hne, AuditManager.getRule, mapGet_mapSet_self, Option.some_bind]
        rw [mapGet_mapSet_ne _ _ _ _ han]
        cases hb : mapGet m.resources rn with
        | none => simp [hb, mapGet]
        | some b => simp [hb]
    · have hne : ¬((rn, an) = (r, a)) := by simp [hrn]
      simp only [if_neg hne, AuditManager.getRule]
      rw [mapGet_mapSet_ne _ _ _ _ hrn]

theorem bucket_isSome_registerAction (m : AuditManager) (t : ActionReg) (r : String)
    (hr : r ≠ "") :
    (mapGet (m.registerAction t).resources r).isSome =
      (((parseAction (ActionReg.nameOf t)).1 == r) || (mapGet m.resources r).isSome) := by
  rcases hp : parseAction (ActionReg.nameOf t) with ⟨rn, an⟩
  by_cases hz : rn = "" ∧ an = ""
  · obtain ⟨hz1, hz2⟩ := hz
    subst hz1; subst hz2
    have hbe : (("" : String) == r) = false := beq_eq_false_iff_ne.mpr (Ne.symm hr)
    simp [AuditManager.registerAction, hp, hbe]
  · simp only [AuditManager.registerAction, hp, if_neg hz]
    by_cases hrn : rn = r
    · subst hrn
      simp [mapGet_mapSet_self]
    · rw [mapGet_mapSet_ne _ _ _ _ hrn]
      simp [beq_eq_false_iff_ne.mpr hrn]

theorem getRule_registerActions (toks : List ActionReg) :
    ∀ (m : AuditManager) (r a : String), r ≠ "" →
      (m.registerActions toks).getRule r a = oor (lastRuleFor toks r a) (m.getRule r a) := by
  induction toks with
  | nil => intro m r a _; simp [AuditManager.registerActions, lastRuleFor, oor]
  | cons t ts ih =>
    intro m r a hr
    have hfold : m.registerActions (t :: ts) = (m.registerAction t).registerActions ts := rfl
    rw [hfold, ih _ r a hr, getRule_registerAction m t r a hr]
    show _ = oor (oor (lastRuleFor ts r a) _) _
    rw [oor_assoc]
    by_cases hc : parseAction (ActionReg.nameOf t) = (r, a)
    · simp only [if_pos hc]; rfl
    · simp only [if_neg hc]; rfl

theorem bucket_isSome_registerActions (toks : List ActionReg) :
    ∀ (m : AuditManager) (r : String), r ≠ "" →
      (mapGet (m.registerActions toks).resources r).isSome =
        (touchesResource toks r || (mapGet m.resources r).isSome) := by
  induction toks with
  | nil => intro m r _; simp [AuditManager.registerActions, touchesResource]
  | cons t ts ih =>
    intro m r hr
    have hfold : m.registerActions (t :: ts) = (m.registerAction t).registerActions ts := rfl
    rw [hfold, ih _ r hr, bucket_isSome_registerAction m t r hr]
    simp [touchesResource, Bool.or_assoc, Bool.or_comm]

/-- The two-branch lookup at the end of `getAction` is the plain
two-level lookup. -/
theorem match_mapGet_eq_getRule (m : AuditManager) (r a : String) :
    (match mapGet m.resources r with
      | some resourceActions => mapGet resourceActions a
      | none => none) = m.getRule r a := by
  cases h : mapGet m.resources r <;> simp [AuditManager.getRule, h]

end NocobaseAudit

namespace NocobaseAudit

/-- C1. Rule resolution follows the specificity order exactly, for every
rule set obtained by registering an arbitrary list of tokens (hence for
every permutation of registration order): querying a named resource `R`
(neither empty nor the sentinel) with action `A` returns the rule of the
last token registered for the exact slot `(R, A)`, else the rule of the
last token registered for `R`'s wildcard slot; when some token touched
resource `R` but neither slot is filled, resolution returns `none`
without falling through to the global bucket; only when no token touched
`R` at all does it return the global bucket's exact entry for `A`. -/
theorem getAction_specificity (toks : List ActionReg) (R A : String)
    (h1 : R ≠ "") (h2 : R ≠ "__default__") :
    (AuditManager.empty.registerActions toks).getAction A (some R) =
      if touchesResource toks R then
        oor (lastRuleFor toks R A) (lastRuleFor toks R "__default__")
      else
        lastRuleFor toks "__default__" A := by
  have hA := getRule_registerActions toks AuditManager.empty R A h1
  have hD := getRule_registerActions toks AuditManager.empty R "__default__" h1
  have hG := getRule_registerActions toks AuditManager.empty "__default__" A
    (by intro h; exact absurd h (by decide))
  have hB := bucket_isSome_registerActions toks AuditManager.empty R h1
  have hEmptyA : AuditManager.empty.getRule R A = none := rfl
  have hEmptyD : AuditManager.empty.getRule R "__default__" = none := rfl
  have hEmptyG : AuditManager.empty.getRule "__default__" A = none := rfl
  rw [hEmptyA, oor_none_right] at hA
  rw [hEmptyD, oor_none_right] at hD
  rw [hEmptyG, oor_none_right] at hG
  have hBempty : (mapGet AuditManager.empty.resources R).isSome = false := rfl
  rw [hBempty, Bool.or_false] at hB
  simp only [AuditManager.getAction, h1, h2, if_neg, ite_false]
  cases hres : mapGet (AuditManager.empty.registerActions toks).resources R with
  | none =>
    rw [hres] at hB
    simp only [Option.isSome_none] at hB
    rw [match_mapGet_eq_getRule, hG, if_neg]
    rw [← hB]
    simp
  | some bucket =>
    rw [hres] at hB
    simp only [Option.isSome_some] at hB
    rw [if_pos hB.symm]
    have hA2 : mapGet bucket A = lastRuleFor toks R A := by
      rw [← hA]; simp [AuditManager.getRule, hres]
    have hD2 : mapGet bucket "__default__" = lastRuleFor toks R "__default__" := by
      rw [← hD]; simp [AuditManager.getRule, hres]
    rw [← hA2, ← hD2]
    cases hma : mapGet bucket A <;> simp [oor, hma]

end NocobaseAudit

namespace NocobaseAudit

/-! ### Helper lemmas about splitting and the default metadata -/

theorem stringMk_data (s : String) : String.mk s.data = s := rfl

theorem splitChar_of_not_mem (sep : Char) (l : List Char) (h : sep ∉ l) :
    splitChar sep l = [l] := by
  induction l with
  | nil => rfl
  | cons c rest ih =>
    simp only [List.mem_cons, not_or] at h
    have hc : (c == sep) = false := beq_eq_false_iff_ne.mpr (Ne.symm h.1)
    simp [splitChar, hc, ih h.2]

theorem splitChar_append (sep : Char) (l1 l2 : List Char) (h : sep ∉ l1) :
    splitChar sep (l1 ++ sep :: l2) = l1 :: splitChar sep l2 := by
  induction l1 with
  | nil => simp [splitChar]
  | cons c rest ih =>
    simp only [List.mem_cons, not_or] at h
    have hc : (c == sep) = false := beq_eq_false_iff_ne.mpr (Ne.symm h.1)
    simp only [List.cons_append, splitChar, hc, Bool.false_eq_true, if_false,
      List.append_eq, ih h.2]

theorem splitChar_cons_takeWhile (sep : Char) (l : List Char) :
    ∃ gs, splitChar sep l = (l.takeWhile fun c => !(c == sep)) :: gs := by
  induction l with
  | nil => exact ⟨[], rfl⟩
  | cons c rest ih =>
    cases hc : c == sep
    · obtain ⟨gs, hgs⟩ := ih
      exact ⟨gs, by simp [splitChar, hc, List.takeWhile, hgs]⟩
    · exact ⟨splitChar sep rest, by simp [splitChar, hc, List.takeWhile]⟩

theorem mapGet_defaultMetaData_request (ctx : ReqCtx) :
    mapGet (getDefaultMetaData ctx) "request" =
      some (.vobj [("params", ctx.requestParams), ("query", ctx.requestQuery),
                   ("body", ctx.requestBody)]) := rfl

theorem mapGet_defaultMetaData_response (ctx : ReqCtx) :
    mapGet (getDefaultMetaData ctx) "response" =
      some (.vobj [("body",
        if jsTruthy ctx.body && (!isBuffer ctx.body && !isStream ctx.body) then ctx.body
        else Val.vnull)]) := by
  unfold getDefaultMetaData
  cases h1 : jsTruthy ctx.body
  · simp [mapGet, h1]
  · cases h2 : (!isBuffer ctx.body && !isStream ctx.body)
    · simp [mapGet, h1, h2]
    · simp [mapGet, h1, h2]

/-- The `getUserInfo` step of `output` does not reject (trivially true
when the rule has no such hook). -/
def userHookOk (rule : Rule) (ctx : ReqCtx) : Prop :=
  match rule.getUserInfo with
  | some f => ∃ ui, f ctx = .ok ui
  | none => True

theorem buildAuditLog_no_hooks (rule : Rule) (ctx : ReqCtx) (reqId : String) (st : Int)
    (md : JRecord) (hu : rule.getUserInfo = none) (hm : rule.getMetaData = none) :
    buildAuditLog rule ctx reqId st md =
      .ok { formatAuditData ctx with
            uuid := reqId
            status := st
            metadata := some (spread md (getDefaultMetaData ctx)) } := by
  unfold buildAuditLog
  rw [hu, hm]
  rfl

/-! ### Shared concrete inputs used by the witnesses and counterexamples -/

/-- A baseline request context: resource `user`, action `create`,
response status 200, truthy string body, diagnostic hook present. -/
def ctxBase : ReqCtx :=
  { reqId := "req-1"
    resourceName := some "user"
    actionName := "create"
    filterByTk := none
    filterKeys := none
    requestParams := .vnull
    requestQuery := .vnull
    requestBody := .vnull
    body := .vstr "data"
    headerDataSource := none
    headerUserAgent := none
    ip := "::1"
    currentUserId := none
    currentRole := none
    status := 200
    hasLog := true }

/-- A sink whose `log` always succeeds. -/
def lgOk : AuditLogger := ⟨fun _ => .ok ()⟩

/-- A manager with one hook-free rule `user:create` and a working sink. -/
def mgrPlain : AuditManager :=
  (AuditManager.empty.registerAction (.str "user:create")).setLogger lgOk

/-- A metadata extractor that returns a record with an `errMsg` field. -/
def extractorOther : MetaHook := fun _ => .ok [("errMsg", .vstr "other")]

/-- A manager whose `user:create` rule carries `extractorOther`. -/
def mgrOverride : AuditManager :=
  (AuditManager.empty.registerAction
    (.obj "user:create" (some extractorOther) none)).setLogger lgOk

end NocobaseAudit

namespace NocobaseAudit

/-- Witness for C1: the spec's concrete overlapping scenario —
bare `create`, wildcard `user:*` and exact `user:create` all registered —
resolves `(user, create)` to the exact rule. -/
theorem getAction_specificity_witness :
    ((AuditManager.empty.registerActions
        [.str "create", .str "user:*", .str "user:create"]).getAction "create" (some "user") =
      if touchesResource [.str "create", .str "user:*", .str "user:create"] "user" then
        oor (lastRuleFor [.str "create", .str "user:*", .str "user:create"] "user" "create")
          (lastRuleFor [.str "create", .str "user:*", .str "user:create"] "user" "__default__")
      else lastRuleFor [.str "create", .str "user:*", .str "user:create"] "__default__" "create") ∧
    ((AuditManager.empty.registerActions
        [.str "create", .str "user:*", .str "user:create"]).getAction "create"
          (some "user")).map Rule.name = some "user:create" :=
  ⟨getAction_specificity [.str "create", .str "user:*", .str "user:create"] "user" "create"
      (by decide) (by decide),
    rfl⟩

/-- C10. The sentinel bucket is addressable from the public interface:
the token `"__default__:foo"` parses under the qualified grammar with
resource part `__default__`, registering it stores its rule in the same
`__default__` bucket that bare-action registrations use (shown for
`"foo"` alongside), and resolving with `resourceName = "__default__"`
behaves exactly like resolving with no resource at all: a plain
exact-action lookup in the sentinel bucket with no wildcard fallback. -/
theorem sentinel_bucket_addressable (m : AuditManager) (gm : Option MetaHook)
    (gu : Option UserHook) (q : String) :
    parseAction "__default__:foo" = ("__default__", "foo") ∧
    (m.registerAction (.obj "__default__:foo" gm gu)).getRule "__default__" "foo" =
      some { name := "__default__:foo", getMetaData := gm, getUserInfo := gu } ∧
    (m.registerAction (.str "foo")).getRule "__default__" "foo" = some { name := "foo" } ∧
    m.getAction q (some "__default__") = m.getAction q none ∧
    m.getAction q none = m.getRule "__default__" q := by
  refine ⟨by decide, ?_, ?_, ?_, ?_⟩
  · rw [getRule_registerAction m _ _ _ (by decide)]
    simp [ActionReg.nameOf, ActionReg.mkRule, show parseAction "__default__:foo" =
      ("__default__", "foo") by decide]
  · rw [getRule_registerAction m _ _ _ (by decide)]
    simp [ActionReg.nameOf, ActionReg.mkRule, show parseAction "foo" =
      ("__default__", "foo") by decide]
  · rfl
  · exact match_mapGet_eq_getRule m "__default__" q

/-- C6 counterexample: when both a truthy `filterByTk` and a non-empty
`filterKeys` are present, `formatResourceUk` returns the joined key
list, not the single-record token. -/
theorem resourceUk_counterexample :
    formatResourceUk { ctxBase with filterByTk := some "1", filterKeys := some ["2", "3"] }
      = "2,3" ∧
    formatResourceUk { ctxBase with filterByTk := some "1", filterKeys := some ["2", "3"] }
      ≠ "1" :=
  ⟨rfl, by decide⟩

/-- C6 (amended). The subject key favors the multi-key list: a present
non-empty `filterKeys` wins (joined by commas) even when a single-record
`filterByTk` is present; the truthy token is used only when the key list
is absent or empty; when both are absent (or falsy/empty) the key is the
empty string. -/
theorem resourceUk_cases (ctx : ReqCtx) :
    (∀ ks, ctx.filterKeys = some ks → ks.length > 0 →
      formatResourceUk ctx = joinStrings "," ks) ∧
    (ctx.filterKeys = none ∨ ctx.filterKeys = some [] → ∀ tk, ctx.filterByTk = some tk →
      tk ≠ "" → formatResourceUk ctx = tk) ∧
    (ctx.filterKeys = none ∨ ctx.filterKeys = some [] → jsStrTruthy ctx.filterByTk = false →
      formatResourceUk ctx = "") := by
  refine ⟨?_, ?_, ?_⟩
  · intro ks hks hlen
    simp [formatResourceUk, hks, hlen]
  · rintro (hk | hk) tk htk hne <;>
      simp [formatResourceUk, hk, htk, bne_iff_ne, hne]
  · rintro (hk | hk) hft <;>
    · cases hbt : ctx.filterByTk with
      | none => simp [formatResourceUk, hk, hbt]
      | some s =>
        rw [hbt] at hft
        simp only [jsStrTruthy] at hft
        simp [formatResourceUk, hk, hbt, hft]

/-- Witness for `resourceUk_cases`, exercising all three cases on
concrete contexts. -/
theorem resourceUk_cases_witness :
    formatResourceUk { ctxBase with filterByTk := some "1", filterKeys := some ["2", "3"] }
      = joinStrings "," ["2", "3"] ∧
    formatResourceUk { ctxBase with filterByTk := some "1" } = "1" ∧
    formatResourceUk ctxBase = "" :=
  ⟨(resourceUk_cases _).1 ["2", "3"] rfl (by decide),
    (resourceUk_cases _).2.1 (Or.inl rfl) "1" rfl (by decide),
    (resourceUk_cases _).2.2 (Or.inl rfl) rfl⟩

/-- C7 counterexample: for a buffer response body the default metadata
still contains the `response.body` field (with value `null`) rather than
omitting it; and a falsy plain-data body (the empty string) is also
replaced by `null` rather than embedded verbatim. -/
theorem response_body_counterexample :
    mapGet (getDefaultMetaData { ctxBase with body := .vbuf 0 }) "response"
      = some (.vobj [("body", Val.vnull)]) ∧
    mapGet (getDefaultMetaData { ctxBase with body := .vstream .readable }) "response"
      = some (.vobj [("body", Val.vnull)]) ∧
    mapGet (getDefaultMetaData { ctxBase with body := .vstr "" }) "response"
      = some (.vobj [("body", Val.vnull)]) ∧
    Val.vnull ≠ Val.vstr "" :=
  ⟨rfl, rfl, rfl, fun h => nomatch h⟩

/-- C7 (amended). The default metadata always contains the
`response.body` field: its value is the response body itself when the
body is truthy plain data, and `null` — never a serialization of the
payload — when the body is a buffer, a stream, or falsy. -/
theorem response_body_default (ctx : ReqCtx) :
    mapGet (getDefaultMetaData ctx) "response" =
      some (.vobj [("body",
        if jsTruthy ctx.body && (!isBuffer ctx.body && !isStream ctx.body) then ctx.body
        else Val.vnull)]) ∧
    (isBuffer ctx.body = true ∨ isStream ctx.body = true →
      mapGet (getDefaultMetaData ctx) "response" = some (.vobj [("body", Val.vnull)])) ∧
    (jsTruthy ctx.body = true → isBuffer ctx.body = false → isStream ctx.body = false →
      mapGet (getDefaultMetaData ctx) "response" = some (.vobj [("body", ctx.body)])) := by
  refine ⟨mapGet_defaultMetaData_response ctx, ?_, ?_⟩
  · intro h
    rw [mapGet_defaultMetaData_response ctx]
    rcases h with h | h <;> simp [h]
  · intro h1 h2 h3
    rw [mapGet_defaultMetaData_response ctx]
    simp [h1, h2, h3]

/-- Witness for `response_body_default`: a buffer body yields `null`, a
truthy string body is embedded verbatim. -/
theorem response_body_default_witness :
    mapGet (getDefaultMetaData { ctxBase with body := .vbuf 0 }) "response"
      = some (.vobj [("body", Val.vnull)]) ∧
    mapGet (getDefaultMetaData ctxBase) "response"
      = some (.vobj [("body", Val.vstr "data")]) :=
  ⟨(response_body_default _).2.1 (Or.inl rfl),
    (response_body_default ctxBase).2.2 rfl rfl rfl⟩

/-- C9 counterexample: for the resource name `a.b.c` the association is
only the second dot-separated segment `b`, not the remainder `b.c`
after the first separator. -/
theorem association_counterexample :
    (formatAuditData { ctxBase with resourceName := some "a.b.c" }).association = "b" ∧
    (formatAuditData { ctxBase with resourceName := some "a.b.c" }).association ≠ "b.c" ∧
    (formatAuditData { ctxBase with resourceName := some "a.b.c" }).collection = "a" :=
  ⟨rfl, by decide, rfl⟩

/-- C9 (amended). A truthy resource name with no separator yields
collection = the whole name and association = ""; a name of the form
`pre.post` with `pre` separator-free yields collection = `pre` and
association = the part of `post` up to the next separator — i.e. the
second dot-separated segment, not the whole remainder after the first
dot. -/
theorem association_split (ctx : ReqCtx) (rn : String)
    (hrn : ctx.resourceName = some rn) (hne : rn ≠ "") :
    (('.' ∈ rn.data → False) →
      (formatAuditData ctx).collection = rn ∧ (formatAuditData ctx).association = "") ∧
    (∀ pre post : String, rn.data = pre.data ++ '.' :: post.data → ('.' ∈ pre.data → False) →
      (formatAuditData ctx).collection = pre ∧
      (formatAuditData ctx).association =
        String.mk (post.data.takeWhile fun c => !(c == '.'))) := by
  have htr : jsStrTruthy (some rn) = true := by
    simp [jsStrTruthy, bne_iff_ne, hne]
  constructor
  · intro hnd
    simp only [formatAuditData, hrn, htr, Option.getD_some, if_true]
    rw [splitChar_of_not_mem '.' rn.data hnd]
    simp [stringMk_data]
  · intro pre post hsplit hnd
    simp only [formatAuditData, hrn, htr, Option.getD_some, if_true]
    rw [hsplit, splitChar_append '.' pre.data post.data hnd]
    obtain ⟨gs, hgs⟩ := splitChar_cons_takeWhile '.' post.data
    rw [hgs]
    simp [stringMk_data]

/-- Witness for `association_split` on `user` (no separator) and
`a.b.c`. -/
theorem association_split_witness :
    ((formatAuditData ctxBase).collection = "user" ∧
      (formatAuditData ctxBase).association = "") ∧
    ((formatAuditData { ctxBase with resourceName := some "a.b.c" }).collection = "a" ∧
      (formatAuditData { ctxBase with resourceName := some "a.b.c" }).association =
        String.mk ("b.c".data.takeWhile fun c => !(c == '.'))) :=
  ⟨(association_split ctxBase "user" rfl (by decide)).1 (by decide),
    (association_split _ "a.b.c" rfl (by decide)).2 "a" "b.c" (by decide) (by decide)⟩

end NocobaseAudit

namespace NocobaseAudit

/-! ### Helper lemmas about the pipeline -/

theorem middleware_ok (m : AuditManager) (next : ReqCtx → NextResult) (ctx ctx1 : ReqCtx)
    (lg : AuditLogger) (hn : next ctx = .ok ctx1) (hl : m.logger = some lg) :
    middleware m next ctx =
      { thrown := none, ctxOut := ctx1, effects := output m ctx1 ctx.reqId 1 [] } := by
  simp [middleware, hn, hl]

theorem middleware_err (m : AuditManager) (next : ReqCtx → NextResult) (ctx ctx1 : ReqCtx)
    (msg : String) (lg : AuditLogger) (hn : next ctx = .err msg ctx1) (hl : m.logger = some lg) :
    middleware m next ctx =
      { thrown := some msg
        ctxOut := ctx1
        effects :=
          output m ctx1 ctx.reqId 0 [("status", .vnum ctx1.status), ("errMsg", .vstr msg)] } := by
  simp [middleware, hn, hl]

theorem output_sinkCalls_ok (m : AuditManager) (lg : AuditLogger) (ctx : ReqCtx)
    (reqId : String) (st : Int) (md : JRecord) (rule : Rule) (al : AuditLog)
    (hr : m.getAction ctx.actionName ctx.resourceName = some rule)
    (hb : buildAuditLog rule ctx reqId st md = .ok al)
    (hl : m.logger = some lg) :
    (output m ctx reqId st md).sinkCalls = [al] := by
  simp only [output, hr, hb, hl]
  cases hlog : lg.logFn al <;> simp [hlog]

theorem applyUserInfo_preserves (al : AuditLog) (ui : Option UserInfo) :
    (applyUserInfo al ui).status = al.status ∧ (applyUserInfo al ui).uuid = al.uuid := by
  cases ui with
  | none => exact ⟨rfl, rfl⟩
  | some u =>
    unfold applyUserInfo
    cases h1 : jsStrTruthy u.id <;> cases h2 : jsStrTruthy u.roleName <;> simp [h1, h2]

theorem buildAuditLog_ok_of_userHookOk (rule : Rule) (ctx : ReqCtx) (reqId : String)
    (st : Int) (md : JRecord) (hok : userHookOk rule ctx) (hm : rule.getMetaData = none) :
    ∃ al, buildAuditLog rule ctx reqId st md = .ok al ∧ al.status = st ∧ al.uuid = reqId ∧
      al.metadata = some (spread md (getDefaultMetaData ctx)) := by
  cases hgu : rule.getUserInfo with
  | none => exact ⟨_, buildAuditLog_no_hooks rule ctx reqId st md hgu hm, rfl, rfl, rfl⟩
  | some g =>
    unfold userHookOk at hok
    rw [hgu] at hok
    obtain ⟨ui, hui⟩ := hok
    have hb : buildAuditLog rule ctx reqId st md =
        .ok { applyUserInfo { formatAuditData ctx with uuid := reqId, status := st } ui with
              metadata := some (spread md (getDefaultMetaData ctx)) } := by
      simp only [buildAuditLog, hgu, hm, hui]
      rfl
    refine ⟨_, hb, ?_, ?_, rfl⟩
    · exact (applyUserInfo_preserves _ ui).1
    · exact (applyUserInfo_preserves _ ui).2

theorem mapGet_spread_defaultMetaData (md : JRecord) (ctx : ReqCtx) (k : String)
    (h1 : k ≠ "request") (h2 : k ≠ "response") :
    mapGet (spread md (getDefaultMetaData ctx)) k = mapGet md k := by
  unfold getDefaultMetaData spread
  simp only [List.foldl]
  rw [mapGet_mapSet_ne _ _ _ _ (Ne.symm h2), mapGet_mapSet_ne _ _ _ _ (Ne.symm h1)]

end NocobaseAudit

namespace NocobaseAudit

/-- C2 counterexample: a successful request (response status 200,
plain-data empty-string body) through the hook-free `user:create` rule.
The emitted record's only outcome field, `status`, holds the succeeded
flag `1`, not the response status 200 — the response HTTP status is not
copied into the record — and the falsy plain-data body is recorded as
`null` in `metadata.response.body` rather than embedded verbatim. -/
theorem success_record_counterexample :
    (middleware mgrPlain (fun c => .ok c) { ctxBase with body := .vstr "" }).effects.sinkCalls =
      [{ uuid := "req-1"
         dataSource := "main"
         resource := some "user"
         collection := "user"
         association := ""
         action := "create"
         resourceUk := ""
         userId := none
         roleName := none
         ip := "::1"
         ua := none
         status := 1
         metadata := some
           [("request", .vobj [("params", .vnull), ("query", .vnull), ("body", .vnull)]),
            ("response", .vobj [("body", .vnull)])] }] ∧
    ({ ctxBase with body := Val.vstr "" } : ReqCtx).status = 200 ∧
    (1 : Int) ≠ 200 ∧ Val.vnull ≠ Val.vstr "" :=
  ⟨rfl, rfl, by decide, fun h => nomatch h⟩

/-- C2 (amended). For a successful request matching a hook-free rule
with a sink configured: exactly one record is handed to the sink; its
`status` field holds the succeeded flag `1` (the response HTTP status is
not copied into the record); nothing is re-thrown; and the metadata is
the (empty) caller metadata spread with the default metadata, whose
`request` entry carries params/query/body verbatim and whose
`response.body` entry is the response body exactly when it is truthy
plain data, `null` otherwise. -/
theorem success_record (m : AuditManager) (lg : AuditLogger) (next : ReqCtx → NextResult)
    (ctx ctx1 : ReqCtx) (rule : Rule)
    (hn : next ctx = .ok ctx1) (hl : m.logger = some lg)
    (hr : m.getAction ctx1.actionName ctx1.resourceName = some rule)
    (hu : rule.getUserInfo = none) (hm : rule.getMetaData = none) :
    (middleware m next ctx).effects.sinkCalls =
      [{ formatAuditData ctx1 with
         uuid := ctx.reqId
         status := 1
         metadata := some (spread [] (getDefaultMetaData ctx1)) }] ∧
    (middleware m next ctx).thrown = none ∧
    mapGet (getDefaultMetaData ctx1) "request" =
      some (.vobj [("params", ctx1.requestParams), ("query", ctx1.requestQuery),
                   ("body", ctx1.requestBody)]) ∧
    mapGet (getDefaultMetaData ctx1) "response" =
      some (.vobj [("body",
        if jsTruthy ctx1.body && (!isBuffer ctx1.body && !isStream ctx1.body) then ctx1.body
        else Val.vnull)]) := by
  rw [middleware_ok m next ctx ctx1 lg hn hl]
  refine ⟨?_, rfl, mapGet_defaultMetaData_request ctx1, mapGet_defaultMetaData_response ctx1⟩
  exact output_sinkCalls_ok m lg ctx1 ctx.reqId 1 [] rule _ hr
    (buildAuditLog_no_hooks rule ctx1 ctx.reqId 1 [] hu hm) hl

/-- Witness for `success_record` on the concrete plain manager and base
context. -/
theorem success_record_witness :
    (middleware mgrPlain (fun c => .ok c) ctxBase).effects.sinkCalls =
      [{ formatAuditData ctxBase with
         uuid := ctxBase.reqId
         status := 1
         metadata := some (spread [] (getDefaultMetaData ctxBase)) }] :=
  (success_record mgrPlain lgOk (fun c => .ok c) ctxBase ctxBase _ rfl rfl rfl rfl rfl).1

/-- C3 counterexample: the downstream handler throws `boom` on a request
matching the `user:create` rule, but that rule carries a metadata
extractor returning `{errMsg: "other"}`; the extractor output overrides
the captured error message, so the single emitted record's
`metadata.errMsg` is `"other"`, not `"boom"`. -/
theorem error_record_counterexample :
    (middleware mgrOverride (fun c => .err "boom" { c with status := 500 }) ctxBase).thrown
      = some "boom" ∧
    ((middleware mgrOverride (fun c => .err "boom" { c with status := 500 }) ctxBase).effects.sinkCalls.map
        fun al => mapGet (al.metadata.getD []) "errMsg") = [some (.vstr "other")] ∧
    some (Val.vstr "other") ≠ some (Val.vstr "boom") := by
  refine ⟨rfl, rfl, ?_⟩
  intro h
  have h2 := Option.some.inj h
  rw [Val.vstr.injEq] at h2
  exact absurd h2 (by decide)

/-- C3 (amended). When the downstream handler throws `msg` on a request
matching a rule, the middleware re-raises exactly `msg` and leaves the
handler's context untouched; and provided a sink is configured, the
rule's user hook (if any) succeeds, and the rule has no metadata
extractor, exactly one record is handed to the sink, with succeeded
flag `0`, `metadata.errMsg = msg` and `metadata.status` equal to the
HTTP status at failure time.  (A metadata extractor's output replaces
these keys on collision, and a rejecting hook suppresses emission, per
the audit-error containment policy.) -/
theorem error_record (m : AuditManager) (lg : AuditLogger) (next : ReqCtx → NextResult)
    (ctx ctx1 : ReqCtx) (msg : String) (rule : Rule)
    (hn : next ctx = .err msg ctx1) (hl : m.logger = some lg)
    (hr : m.getAction ctx1.actionName ctx1.resourceName = some rule)
    (hok : userHookOk rule ctx1) (hm : rule.getMetaData = none) :
    (middleware m next ctx).thrown = some msg ∧
    (middleware m next ctx).ctxOut = ctx1 ∧
    ∃ al, (middleware m next ctx).effects.sinkCalls = [al] ∧
      al.status = 0 ∧
      mapGet (al.metadata.getD []) "errMsg" = some (.vstr msg) ∧
      mapGet (al.metadata.getD []) "status" = some (.vnum ctx1.status) := by
  rw [middleware_err m next ctx ctx1 msg lg hn hl]
  obtain ⟨al, hb, hst, huu, hmd⟩ := buildAuditLog_ok_of_userHookOk rule ctx1 ctx.reqId 0
    [("status", .vnum ctx1.status), ("errMsg", .vstr msg)] hok hm
  refine ⟨rfl, rfl, al, ?_, hst, ?_, ?_⟩
  · exact output_sinkCalls_ok m lg ctx1 ctx.reqId 0 _ rule al hr hb hl
  · rw [hmd, Option.getD_some,
      mapGet_spread_defaultMetaData _ ctx1 "errMsg" (by decide) (by decide)]
    rfl
  · rw [hmd, Option.getD_some,
      mapGet_spread_defaultMetaData _ ctx1 "status" (by decide) (by decide)]
    rfl

/-- Witness for `error_record` on the concrete hook-free manager. -/
theorem error_record_witness :
    (middleware mgrPlain (fun c => .err "boom" { c with status := 500 }) ctxBase).thrown
      = some "boom" ∧
    ∃ al, (middleware mgrPlain
        (fun c => .err "boom" { c with status := 500 }) ctxBase).effects.sinkCalls = [al] ∧
      al.status = 0 ∧
      mapGet (al.metadata.getD []) "errMsg" = some (.vstr "boom") ∧
      mapGet (al.metadata.getD []) "status" = some (.vnum 500) := by
  obtain ⟨h1, _, h3⟩ := error_record mgrPlain lgOk
    (fun c => .err "boom" { c with status := 500 }) ctxBase _ "boom" _ rfl rfl rfl trivial rfl
  exact ⟨h1, h3⟩

end NocobaseAudit

namespace NocobaseAudit

/-- C4. Audit-subsystem failures are contained.  (1) Unconditionally,
the middleware re-raises exactly the downstream handler's error (or
nothing) and returns the handler's context unchanged, whatever the rule
set, hooks or sink do.  (2) When a rule matches but building the record
fails (a rejecting hook), `output` makes no sink call and reports
`audit output error: <message>` through `ctx.log` when that hook is
present, swallowing the error.  (3) When the sink's `log` itself
throws, the failure is likewise caught and reported, and the response
outcome is still unaffected by (1). -/
theorem audit_errors_contained :
    (∀ (m : AuditManager) (next : ReqCtx → NextResult) (ctx : ReqCtx),
      (middleware m next ctx).thrown = (next ctx).thrownErr ∧
      (middleware m next ctx).ctxOut = (next ctx).ctxAfter) ∧
    (∀ (m : AuditManager) (ctx : ReqCtx) (reqId : String) (st : Int) (md : JRecord)
        (rule : Rule) (e : String),
      m.getAction ctx.actionName ctx.resourceName = some rule →
      buildAuditLog rule ctx reqId st md = .error e →
      output m ctx reqId st md =
        { sinkCalls := []
          diags := if ctx.hasLog then ["audit output error: " ++ e] else [] }) ∧
    (∀ (m : AuditManager) (lg : AuditLogger) (ctx : ReqCtx) (reqId : String) (st : Int)
        (md : JRecord) (rule : Rule) (al : AuditLog) (e : String),
      m.getAction ctx.actionName ctx.resourceName = some rule →
      buildAuditLog rule ctx reqId st md = .ok al →
      m.logger = some lg →
      lg.logFn al = .error e →
      output m ctx reqId st md =
        { sinkCalls := [al]
          diags := if ctx.hasLog then ["audit output error: " ++ e] else [] }) := by
  refine ⟨?_, ?_, ?_⟩
  · intro m next ctx
    cases hn : next ctx <;>
      simp [middleware, hn, NextResult.thrownErr, NextResult.ctxAfter]
  · intro m ctx reqId st md rule e h1 h2
    simp [output, h1, h2]
  · intro m lg ctx reqId st md rule al e h1 h2 h3 h4
    simp [output, h1, h2, h3, h4]

/-- A metadata extractor that rejects. -/
def extractorThrows : MetaHook := fun _ => .error "hookboom"

/-- A manager whose `user:create` rule carries the rejecting extractor. -/
def mgrThrows : AuditManager :=
  (AuditManager.empty.registerAction
    (.obj "user:create" (some extractorThrows) none)).setLogger lgOk

/-- A sink whose `log` always throws. -/
def lgThrows : AuditLogger := ⟨fun _ => .error "sinkboom"⟩

/-- A manager with a hook-free `user:create` rule and a throwing sink. -/
def mgrSinkThrows : AuditManager :=
  (AuditManager.empty.registerAction (.str "user:create")).setLogger lgThrows

/-- The record built for `ctxBase` by the hook-free `user:create` rule. -/
def alBase : AuditLog :=
  { formatAuditData ctxBase with
    uuid := "req-1"
    status := 1
    metadata := some (spread [] (getDefaultMetaData ctxBase)) }

/-- Witness for `audit_errors_contained`: a rejecting extractor and a
throwing sink on concrete inputs; in both cases the request outcome is
untouched and a diagnostic is recorded. -/
theorem audit_errors_contained_witness :
    (middleware mgrThrows (fun c => .ok c) ctxBase).thrown = none ∧
    output mgrThrows ctxBase "req-1" 1 [] =
      { sinkCalls := [], diags := ["audit output error: hookboom"] } ∧
    output mgrSinkThrows ctxBase "req-1" 1 [] =
      { sinkCalls := [alBase], diags := ["audit output error: sinkboom"] } :=
  ⟨(audit_errors_contained.1 mgrThrows (fun c => .ok c) ctxBase).1,
    audit_errors_contained.2.1 mgrThrows ctxBase "req-1" 1 [] _ "hookboom" rfl rfl,
    audit_errors_contained.2.2 mgrSinkThrows lgThrows ctxBase "req-1" 1 [] _ alBase
      "sinkboom" rfl rfl rfl rfl⟩

/-- C5. The final metadata is computed by exactly one of two merges:
with a metadata extractor, `{...callerMetadata, ...extractorOutput}` —
extractor fields winning on key collision (stated for extractor outputs
with JS-object-like distinct keys) and the default request/response
metadata skipped entirely; without one, `{...callerMetadata,
...defaultMetadata}`. -/
theorem metadata_merge_dichotomy (rule : Rule) (ctx : ReqCtx) (reqId : String) (st : Int)
    (callerMd : JRecord) (hok : userHookOk rule ctx) :
    (∀ f extra, rule.getMetaData = some f → f ctx = .ok extra →
      ∃ al, buildAuditLog rule ctx reqId st callerMd = .ok al ∧
        al.metadata = some (spread callerMd extra) ∧
        ((extra.map Prod.fst).Nodup → ∀ k,
          mapGet (spread callerMd extra) k = oor (mapGet extra k) (mapGet callerMd k))) ∧
    (rule.getMetaData = none →
      ∃ al, buildAuditLog rule ctx reqId st callerMd = .ok al ∧
        al.metadata = some (spread callerMd (getDefaultMetaData ctx))) := by
  constructor
  · intro f extra hf hfe
    cases hgu : rule.getUserInfo with
    | none =>
      have hb : buildAuditLog rule ctx reqId st callerMd =
          .ok { formatAuditData ctx with
                uuid := reqId
                status := st
                metadata := some (spread callerMd extra) } := by
        simp only [buildAuditLog, hgu, hf, hfe]
        rfl
      exact ⟨_, hb, rfl, fun hnd k => mapGet_spread callerMd extra k hnd⟩
    | some g =>
      unfold userHookOk at hok
      rw [hgu] at hok
      obtain ⟨ui, hui⟩ := hok
      have hb : buildAuditLog rule ctx reqId st callerMd =
          .ok { applyUserInfo { formatAuditData ctx with uuid := reqId, status := st } ui with
                metadata := some (spread callerMd extra) } := by
        simp only [buildAuditLog, hgu, hui, hf, hfe]
        rfl
      exact ⟨_, hb, rfl, fun hnd k => mapGet_spread callerMd extra k hnd⟩
  · intro hm
    obtain ⟨al, hb, _, _, hmd⟩ := buildAuditLog_ok_of_userHookOk rule ctx reqId st callerMd hok hm
    exact ⟨al, hb, hmd⟩

/-- Witness for `metadata_merge_dichotomy`: with the concrete extractor
the metadata is the extractor output spread over the caller metadata (no
default fields); without one it is the default metadata merge. -/
theorem metadata_merge_dichotomy_witness :
    (∃ al, buildAuditLog { name := "user:create", getMetaData := some extractorOther } ctxBase
        "req-1" 1 [] = .ok al ∧
      al.metadata = some (spread [] [("errMsg", .vstr "other")])) ∧
    (∃ al, buildAuditLog { name := "user:create" } ctxBase "req-1" 1 [] = .ok al ∧
      al.metadata = some (spread [] (getDefaultMetaData ctxBase))) := by
  constructor
  · obtain ⟨al, h1, h2, _⟩ :=
      (metadata_merge_dichotomy { name := "user:create", getMetaData := some extractorOther }
        ctxBase "req-1" 1 [] trivial).1 extractorOther [("errMsg", .vstr "other")] rfl rfl
    exact ⟨al, h1, h2⟩
  · exact (metadata_merge_dichotomy { name := "user:create" } ctxBase "req-1" 1 []
      trivial).2 rfl

/-- C8. When no sink is configured, or when the observed
(resource, action) pair matches no rule, the middleware makes no sink
call and records no diagnostic, while the downstream handler's result or
error is still delivered unchanged to the caller. -/
theorem skipped_requests (m : AuditManager) (next : ReqCtx → NextResult) (ctx : ReqCtx)
    (h : m.logger = none ∨
      m.getAction (next ctx).ctxAfter.actionName (next ctx).ctxAfter.resourceName = none) :
    (middleware m next ctx).effects.sinkCalls = [] ∧
    (middleware m next ctx).effects.diags = [] ∧
    (middleware m next ctx).thrown = (next ctx).thrownErr ∧
    (middleware m next ctx).ctxOut = (next ctx).ctxAfter := by
  rcases h with h | h
  · cases hn : next ctx <;>
      simp [middleware, hn, h, NextResult.thrownErr, NextResult.ctxAfter]
  · cases hn : next ctx with
    | ok c1 =>
      rw [hn] at h
      simp only [NextResult.ctxAfter] at h
      cases hl : m.logger <;>
        simp [middleware, hn, hl, output, h, NextResult.thrownErr, NextResult.ctxAfter]
    | err msg c1 =>
      rw [hn] at h
      simp only [NextResult.ctxAfter] at h
      cases hl : m.logger <;>
        simp [middleware, hn, hl, output, h, NextResult.thrownErr, NextResult.ctxAfter]

/-- Witness for `skipped_requests`: a matching rule set but no sink, and
a sink but no matching rule; in both runs nothing is emitted and the
outcome is delivered. -/
theorem skipped_requests_witness :
    ((middleware (AuditManager.empty.registerAction (.str "user:create"))
        (fun c => .ok c) ctxBase).effects.sinkCalls = [] ∧
      (middleware (AuditManager.empty.registerAction (.str "user:create"))
        (fun c => .ok c) ctxBase).effects.diags = [] ∧
      (middleware (AuditManager.empty.registerAction (.str "user:create"))
        (fun c => .ok c) ctxBase).thrown = none ∧
      (middleware (AuditManager.empty.registerAction (.str "user:create"))
        (fun c => .ok c) ctxBase).ctxOut = ctxBase) ∧
    ((middleware mgrPlain (fun c => .ok { c with actionName := "destroy" })
        ctxBase).effects.sinkCalls = [] ∧
      (middleware mgrPlain (fun c => .ok { c with actionName := "destroy" })
        ctxBase).thrown = none) := by
  constructor
  · exact skipped_requests (AuditManager.empty.registerAction (.str "user:create"))
      (fun c => .ok c) ctxBase (Or.inl rfl)
  · obtain ⟨h1, _, h3, _⟩ := skipped_requests mgrPlain
      (fun c => .ok { c with actionName := "destroy" }) ctxBase (Or.inr rfl)
    exact ⟨h1, h3⟩

end NocobaseAudit
